import Mathlib

/-!
Verification of the kanban-board script (`script.js`) of the
`dasha-birthday` repository.

The file shallowly embeds the domain model and the operations of the
script: tasks, teams, columns and the greeting pools of the loaded
configuration; the task-movement engine `moveTask` together with
`createNewTaskInBacklog`, `getRandomTeam`, `getGreetingForTask`,
`initializeTasks`; the effect-dispatch function `showEffectForColumn`;
and the touch-gesture exit handlers (`handleTouchEnd`, the `touchcancel`
listener, `cleanupDragState`).

Modelling conventions:
* every call site of `Math.floor(Math.random() * n)` receives an oracle
  draw `r : Nat` and selects index `randIndex r n` (for `n > 0` this is
  `r % n`, which ranges over all valid indices exactly as the uniform
  draw does; for `n = 0` the JS expression evaluates to index `0`);
* a JS `TypeError` (property access on `undefined`) is made explicit:
  functions that can throw return an `Option JsErr` alongside the state
  reached when the exception escapes;
* a JS value that may be `undefined` is an `Option`;
* DOM side effects that the domain logic performs (`renderTasks`,
  `showConfetti`, running an effect from the effect registry,
  `console.warn` for an unknown effect name) are recorded in event and
  warning logs carried by the board state.
-/

namespace Kanban

/-- A team of the loaded configuration.  The script reads only `team.id`
from the movement engine (`name`, `color`, `photo` are purely
presentational). -/
structure Team where
  id : String
deriving DecidableEq, Repr

/-- A column of the loaded configuration, with the fields the engine
reads: `isFinal`, `assigneeMode`, `assignees`, `effect`.  Absent JSON
fields are `none` (for `isFinal` the JS truthiness test makes absence
equal to `false`). -/
structure Column where
  id : String
  isFinal : Bool
  assigneeMode : Option String
  assignees : Option (List String)
  effect : Option String
deriving DecidableEq, Repr

/-- A seed task record of `config.initialTasks`. -/
structure TaskConfig where
  id : Nat
  columnId : String
  teamId : String
deriving DecidableEq, Repr

/-- A per-column greeting pool: either a flat array of strings or an
object mapping team ids to arrays of strings
(`config.greetings[columnId]`). -/
inductive Greeting where
  | flat (pool : List String)
  | perTeam (pools : List (String × List String))
deriving DecidableEq, Repr

/-- The parts of the loaded `config` object that the embedded code
reads. -/
structure Config where
  teams : List Team
  columns : List Column
  greetings : List (String × Greeting)
  initialTasks : List TaskConfig
deriving DecidableEq, Repr

/-- A task card.  `description` is an `Option` because the script can
store the JS value `undefined` in it (picking from an empty greeting
pool). -/
structure Task where
  id : Nat
  columnId : String
  teamId : String
  description : Option String
deriving DecidableEq, Repr

/-- Domain-visible side effects of the engine: a full re-render
(`renderTasks`), the completion celebration (`showConfetti`), and the
execution of a named registry effect on a column. -/
inductive Ev where
  | render
  | confetti
  | colEffect (name : String) (columnId : String)
deriving DecidableEq, Repr

/-- The mutable globals of the script that the engine touches:
`tasks`, `nextTaskId`, plus logs of emitted effects and of
`console.warn` messages from effect dispatch. -/
structure BoardState where
  tasks : List Task
  nextTaskId : Nat
  events : List Ev
  warnings : List String
deriving DecidableEq, Repr

/-- The one kind of runtime error the embedded paths can raise: a JS
`TypeError` from a property access on `undefined`. -/
inductive JsErr where
  | typeError
deriving DecidableEq, Repr

/-- Index produced by `Math.floor(Math.random() * n)` under oracle draw
`r`: any index `< n` (uniformly, when `r` is uniform) for `n > 0`, and
the literal index `0` when `n = 0`. -/
def randIndex (r n : Nat) : Nat :=
  if n = 0 then 0 else r % n

/-- `getTeamById` (script.js): `config.teams.find(t => t.id === teamId)`. -/
def getTeamById (cfg : Config) (teamId : String) : Option Team :=
  cfg.teams.find? (fun t => t.id == teamId)

/-- `getColumnById` (script.js): `config.columns.find(c => c.id === columnId)`. -/
def getColumnById (cfg : Config) (columnId : String) : Option Column :=
  cfg.columns.find? (fun c => c.id == columnId)

/-- `getRandomTeam` (script.js):
`config.teams[Math.floor(Math.random() * config.teams.length)]`.
Returns `none` (the JS `undefined`) when the team list is empty. -/
def getRandomTeam (cfg : Config) (r : Nat) : Option Team :=
  cfg.teams.get? (randIndex r cfg.teams.length)

/-- JS object-property lookup `config.greetings[columnId]`. -/
def greetLookup (l : List (String × Greeting)) (k : String) : Option Greeting :=
  (l.find? (fun p => p.1 == k)).map (fun p => p.2)

/-- JS object-property lookup `greetings[teamId]` inside a per-team
greeting object. -/
def poolLookup (l : List (String × List String)) (k : String) : Option (List String) :=
  (l.find? (fun p => p.1 == k)).map (fun p => p.2)

/-- The fixed fallback text returned by `getGreetingForTask` when no
pool applies. -/
def loadingPlaceholder : String := "Поздравление загружается..."

/-- `getGreetingForTask(columnId, teamId)` (script.js).  `none` models
the JS `undefined` that out-of-range indexing of an empty pool
produces; the function itself never throws. -/
def getGreetingForTask (cfg : Config) (columnId teamId : String) (r : Nat) : Option String :=
  match greetLookup cfg.greetings columnId with
  | none => some loadingPlaceholder
  | some (.flat pool) => pool.get? (randIndex r pool.length)
  | some (.perTeam pools) =>
    match poolLookup pools teamId with
    | some teamPool => teamPool.get? (randIndex r teamPool.length)
    | none => some loadingPlaceholder

/-- `renderTasks()` as seen by the domain: a re-render signal. -/
def renderTasks (st : BoardState) : BoardState :=
  { st with events := st.events ++ [.render] }

/-- `showConfetti()` as seen by the domain: the completion
celebration. -/
def showConfetti (st : BoardState) : BoardState :=
  { st with events := st.events ++ [.confetti] }

/-- `ALL_EFFECTS = Object.keys(EFFECTS_LIBRARY)` (script.js), in source
order. -/
def ALL_EFFECTS : List String :=
  ["shake", "pulse", "glow", "glitch", "bounce", "rotate", "flash",
   "rainbow", "zoom", "slide", "fade", "wave", "ripple", "spin",
   "swing", "jello", "wobble", "tada", "flip", "rubber-band",
   "heartbeat", "neon-glow", "confetti", "checkmarks", "sparkles",
   "hearts", "stars", "bubbles", "snow", "lightning", "fireworks"]

/-- `showEffectForColumn(columnId)` (script.js): resolve the column's
configured effect name (re-rolling the `"random"` sentinel over
`ALL_EFFECTS` at each call), execute it if registered, otherwise
`console.warn`.  The JS guard `!column.effect` is falsy for an absent
name and for the empty string. -/
def showEffectForColumn (cfg : Config) (columnId : String) (r : Nat) (st : BoardState) : BoardState :=
  match getColumnById cfg columnId with
  | none => st
  | some col =>
    match col.effect with
    | none => st
    | some eff =>
      if eff == "" then st
      else
        let effectName := if eff == "random"
          then (ALL_EFFECTS.get? (randIndex r ALL_EFFECTS.length)).getD ""
          else eff
        if ALL_EFFECTS.contains effectName then
          { st with events := st.events ++ [.colEffect effectName columnId] }
        else
          { st with warnings := st.warnings ++ [effectName] }

/-- `createNewTaskInBacklog()` (script.js).  Returns without creating a
task when no `"backlog"` column exists.  The object literal evaluates
`id: nextTaskId++` before `teamId: randomTeam.id`, so when the team
list is empty the `TypeError` escapes with `nextTaskId` already
incremented and nothing pushed. -/
def createNewTaskInBacklog (cfg : Config) (st : BoardState) (rTeam rGreet : Nat) :
    Option JsErr × BoardState :=
  match cfg.columns.find? (fun c => c.id == "backlog") with
  | none => (none, st)
  | some _ =>
    let randomTeam := getRandomTeam cfg rTeam
    let idAssigned := st.nextTaskId
    let st1 : BoardState := { st with nextTaskId := st.nextTaskId + 1 }
    match randomTeam with
    | none => (some .typeError, st1)
    | some tm =>
      let newTask : Task :=
        { id := idAssigned, columnId := "backlog", teamId := tm.id,
          description := getGreetingForTask cfg "backlog" tm.id rGreet }
      (none, renderTasks { st1 with tasks := st1.tasks ++ [newTask] })

/-- In-place mutation of the task object returned by
`tasks.find(t => t.id === taskId)`: rewrite the first (and in practice
only) task with the given id. -/
def updateFirst (ts : List Task) (taskId : Nat) (f : Task → Task) : List Task :=
  match ts with
  | [] => []
  | t :: rest => if t.id == taskId then f t :: rest else t :: updateFirst rest taskId f

/-- The assignee-resolution block of `moveTask` (script.js): random mode
or an empty/absent assignee list draws from all teams (throwing when
the team list is empty), a single-entry list is used as-is, a longer
list is drawn from uniformly. -/
def resolveNewTeamId (cfg : Config) (newColumn : Column) (rAssign : Nat) : Except JsErr String :=
  let assignees := newColumn.assignees.getD []
  if newColumn.assigneeMode == some "random" || assignees.length == 0 then
    match getRandomTeam cfg rAssign with
    | none => .error .typeError
    | some tm => .ok tm.id
  else if assignees.length == 1 then
    .ok (assignees.getD 0 "")
  else
    .ok (assignees.getD (randIndex rAssign assignees.length) "")

/-- `moveTask(taskId, newColumnId, oldColumnId)` (script.js).  Oracle
draws: `rAssign` for the assignee re-roll, `rGreet` for the description
re-roll, `rSpawnTeam`/`rSpawnGreet` for the backlog spawn, `rEffect`
for effect dispatch.  A missing task is a silent early return; a
missing source column throws at `oldColumn.isFinal`; on the non-bypass
path the task's `columnId` is mutated before `newColumn.assignees` can
throw. -/
def moveTask (cfg : Config) (st : BoardState) (taskId : Nat)
    (newColumnId oldColumnId : String)
    (rAssign rGreet rSpawnTeam rSpawnGreet rEffect : Nat) :
    Option JsErr × BoardState :=
  match st.tasks.find? (fun t => t.id == taskId) with
  | none => (none, st)
  | some _ =>
    match getColumnById cfg oldColumnId with
    | none => (some .typeError, st)
    | some oldColumn =>
      if oldColumn.isFinal then
        match createNewTaskInBacklog cfg st rSpawnTeam rSpawnGreet with
        | (some e, st1) => (some e, st1)
        | (none, st1) => (none, showConfetti st1)
      else
        let st1 : BoardState :=
          { st with tasks :=
              updateFirst st.tasks taskId (fun t => { t with columnId := newColumnId }) }
        match getColumnById cfg newColumnId with
        | none => (some .typeError, st1)
        | some newColumn =>
          match resolveNewTeamId cfg newColumn rAssign with
          | .error e => (some e, st1)
          | .ok newTeamId =>
            let descr := getGreetingForTask cfg newColumnId newTeamId rGreet
            let upd := fun t => { t with teamId := newTeamId, description := descr }
            let st2 : BoardState :=
              { st1 with tasks := updateFirst st1.tasks taskId upd }
            if newColumn.isFinal then
              match createNewTaskInBacklog cfg (showConfetti st2) rSpawnTeam rSpawnGreet with
              | (some e, st3) => (some e, st3)
              | (none, st3) => (none, renderTasks st3)
            else
              (none, renderTasks (showEffectForColumn cfg newColumnId rEffect st2))

/-- The global state at script start: `tasks = []`, `nextTaskId = 1`. -/
def initialBoard : BoardState :=
  { tasks := [], nextTaskId := 1, events := [], warnings := [] }

/-- One iteration of the `initializeTasks` loop (script.js): push the
seed task (its description drawn from the greeting pool) and raise
`nextTaskId` past the seed id when needed.  The unused
`getTeamById`/`getColumnById` lookups of the source have no effect. -/
def initStep (cfg : Config) (st : BoardState) (tc : TaskConfig) (r : Nat) : BoardState :=
  { st with
    tasks := st.tasks ++
      [{ id := tc.id, columnId := tc.columnId, teamId := tc.teamId,
         description := getGreetingForTask cfg tc.columnId tc.teamId r }],
    nextTaskId := if st.nextTaskId ≤ tc.id then tc.id + 1 else st.nextTaskId }

/-- The `forEach` loop of `initializeTasks`, with a per-seed greeting
draw `rs i`. -/
def initLoop (cfg : Config) (rs : Nat → Nat) :
    List TaskConfig → Nat → BoardState → BoardState
  | [], _, st => st
  | tc :: rest, i, st => initLoop cfg rs rest (i + 1) (initStep cfg st tc (rs i))

/-- `initializeTasks()` (script.js), run from the script-start
globals. -/
def initializeTasks (cfg : Config) (rs : Nat → Nat) : BoardState :=
  initLoop cfg rs cfg.initialTasks 0 initialBoard

/-- The ids of the tasks on the board, in list order. -/
def taskIds (st : BoardState) : List Nat :=
  st.tasks.map (fun t => t.id)

/-- A domain operation reachable after initialization: a `moveTask`
call or a direct backlog spawn, with their oracle draws. -/
inductive Op where
  | move (taskId : Nat) (newCol oldCol : String) (r1 r2 r3 r4 r5 : Nat)
  | spawn (rTeam rGreet : Nat)
deriving DecidableEq, Repr

/-- Run one operation, keeping the state an escaping exception leaves
behind. -/
def runOp (cfg : Config) (st : BoardState) : Op → BoardState
  | .move tid nc oc r1 r2 r3 r4 r5 => (moveTask cfg st tid nc oc r1 r2 r3 r4 r5).2
  | .spawn r1 r2 => (createNewTaskInBacklog cfg st r1 r2).2

/-- Run a sequence of operations. -/
def runOps (cfg : Config) (st : BoardState) (ops : List Op) : BoardState :=
  ops.foldl (runOp cfg) st

/-- The inline styles, CSS classes and dataset entry of a task card
that the drag machinery writes and `cleanupDragState` restores.  A
freshly created card (`createTaskElement`) has none of them set: all
string fields are `""` (the cleared inline style), both class flags are
`false`, and the dataset entry is absent. -/
structure Style where
  classDragging : Bool
  classTouchDragging : Bool
  position : String
  zIndex : String
  left : String
  top : String
  pointerEvents : String
  visibility : String
  transform : String
  width : String
  dragOffsetY : Option String
deriving DecidableEq, Repr

/-- The pre-drag style of a task card, which is also exactly what
`cleanupDragState` restores. -/
def defaultStyle : Style :=
  { classDragging := false, classTouchDragging := false, position := "",
    zIndex := "", left := "", top := "", pointerEvents := "",
    visibility := "", transform := "", width := "", dragOffsetY := none }

/-- The module-level drag-session variables of the script.  The dragged
task is held as the task object reference (`draggedTask`); the dragged
element and the timer's captured element are element ids into the style
map; `lastColumnOver` is held as that column element's
`dataset.columnId`.  The long-press timer variable carries the
callback's captured `(task, element)` pair. -/
structure GestureState where
  touchStartX : Int
  touchStartY : Int
  isDragging : Bool
  draggedTask : Option Task
  draggedElement : Option Nat
  initialScrollTop : Int
  dragDirection : Option Unit
  lastColumnOver : Option String
  currentTouchEvent : Option Unit
  touchStartTime : Nat
  hasMoved : Bool
  touchTimeout : Option (Option Task × Nat)
deriving DecidableEq, Repr

/-- The whole modelled application: domain board, drag session, the
inline styles of the cards (keyed by element id), the `drag-over`
highlighted columns, and a log of the `moveTask` invocations the
gesture layer makes. -/
structure AppState where
  board : BoardState
  gesture : GestureState
  styles : List (Nat × Style)
  dragOverCols : List String
  moveCalls : List (Nat × String × String)
deriving DecidableEq, Repr

/-- Overwrite the style of element `eid` in the style map. -/
def setStyle (l : List (Nat × Style)) (eid : Nat) (s : Style) : List (Nat × Style) :=
  l.map (fun p => if p.1 == eid then (p.1, s) else p)

/-- Look up the style of element `eid`. -/
def styleOf (l : List (Nat × Style)) (eid : Nat) : Option Style :=
  (l.find? (fun p => p.1 == eid)).map (fun p => p.2)

/-- `cleanupDragState()` (script.js): cancel and clear the long-press
timer, strip the drag classes / inline styles / dataset entry from the
dragged element, reset every drag-session variable to its idle value,
and clear the `drag-over` highlight from all columns. -/
def cleanupDragState (app : AppState) : AppState :=
  let styles1 :=
    match app.gesture.draggedElement with
    | some eid => setStyle app.styles eid defaultStyle
    | none => app.styles
  { app with
    styles := styles1,
    dragOverCols := [],
    gesture := { app.gesture with
      touchTimeout := none, isDragging := false, draggedTask := none,
      draggedElement := none, dragDirection := none, lastColumnOver := none,
      currentTouchEvent := none, touchStartTime := 0, hasMoved := false } }

/-- `handleTouchEnd(e)` (script.js).  The initial
`clearTimeout(touchTimeout)` only cancels the pending callback; the
variable itself is cleared by `cleanupDragState`.  With an active drag
and a recorded hover column whose `dataset.columnId` is truthy, the
drop invokes `moveTask`; `cleanupDragState` then runs — unless the
`moveTask` call throws, in which case the exception escapes the
listener before cleanup. -/
def handleTouchEnd (cfg : Config) (app : AppState)
    (r1 r2 r3 r4 r5 : Nat) : Option JsErr × AppState :=
  match app.gesture.draggedTask, app.gesture.draggedElement with
  | some task, some _ =>
    if app.gesture.isDragging then
      match app.gesture.lastColumnOver with
      | some newColumnId =>
        if newColumnId == "" then (none, cleanupDragState app)
        else
          match moveTask cfg app.board task.id newColumnId task.columnId r1 r2 r3 r4 r5 with
          | (some e, b1) =>
            let app1 : AppState :=
              { app with
                board := b1
                moveCalls := app.moveCalls ++ [(task.id, newColumnId, task.columnId)] }
            (some e, app1)
          | (none, b1) =>
            let app1 : AppState :=
              { app with
                board := b1
                moveCalls := app.moveCalls ++ [(task.id, newColumnId, task.columnId)] }
            (none, cleanupDragState app1)
      | none => (none, cleanupDragState app)
    else (none, cleanupDragState app)
  | _, _ => (none, cleanupDragState app)

/-- The `touchcancel` listener of `createTaskElement` (script.js): when
a drag is active and a hover column was recorded, the cancel is treated
as a drop — `moveTask` is invoked with the dragged task's id, the
recorded column as target and the task's current column as source
(guarded by JS truthiness of both column ids) — and `cleanupDragState`
always runs afterwards (unless the `moveTask` call throws). -/
def handleTouchCancel (cfg : Config) (app : AppState)
    (r1 r2 r3 r4 r5 : Nat) : Option JsErr × AppState :=
  match app.gesture.draggedTask, app.gesture.lastColumnOver with
  | some task, some newColumnId =>
    if app.gesture.isDragging && !(newColumnId == "") && !(task.columnId == "") then
      match moveTask cfg app.board task.id newColumnId task.columnId r1 r2 r3 r4 r5 with
      | (some e, b1) =>
        let app1 : AppState :=
          { app with
            board := b1
            moveCalls := app.moveCalls ++ [(task.id, newColumnId, task.columnId)] }
        (some e, app1)
      | (none, b1) =>
        let app1 : AppState :=
          { app with
            board := b1
            moveCalls := app.moveCalls ++ [(task.id, newColumnId, task.columnId)] }
        (none, cleanupDragState app1)
    else (none, cleanupDragState app)
  | _, _ => (none, cleanupDragState app)

/-- `app'` is `app` after a complete drag-session teardown: every
session variable is back at its idle value, no column keeps the
`drag-over` highlight, and the element that was being dragged (if any,
and if it is in the style map) is back to its pre-drag style. -/
def restoresAndIdles (app app' : AppState) : Prop :=
  app'.gesture.isDragging = false ∧
  app'.gesture.draggedTask = none ∧
  app'.gesture.draggedElement = none ∧
  app'.gesture.lastColumnOver = none ∧
  app'.gesture.touchTimeout = none ∧
  app'.gesture.currentTouchEvent = none ∧
  app'.gesture.dragDirection = none ∧
  app'.gesture.touchStartTime = 0 ∧
  app'.gesture.hasMoved = false ∧
  app'.dragOverCols = [] ∧
  (∀ eid, app.gesture.draggedElement = some eid →
    (styleOf app.styles eid).isSome →
    styleOf app'.styles eid = some defaultStyle)

/-! Concrete fixture: a small configuration and board in the shape of
the scenario of the spec (an intake `backlog` column, a `doing` column
with a fixed single assignee and the `"random"` effect, and a final
`production` column). -/

/-- Fixture configuration. -/
def cfgW : Config :=
  { teams := [⟨"t1"⟩, ⟨"t2"⟩],
    columns := [⟨"backlog", false, none, none, some "sparkles"⟩,
                ⟨"doing", false, some "fixed", some ["t2"], some "random"⟩,
                ⟨"production", true, none, none, some "confetti"⟩],
    greetings := [("backlog", .flat ["hi", "yo"]),
                  ("doing", .perTeam [("t2", ["go"])])],
    initialTasks := [⟨1, "backlog", "t1"⟩, ⟨5, "doing", "t2"⟩] }

/-- Fixture seed task 1. -/
def taskW1 : Task :=
  { id := 1, columnId := "backlog", teamId := "t1", description := some "hi" }

/-- Fixture seed task 5. -/
def taskW5 : Task :=
  { id := 5, columnId := "doing", teamId := "t2", description := some "go" }

/-- Fixture board: the state `initializeTasks` produces from `cfgW`
with all greeting draws 0. -/
def stW : BoardState :=
  { tasks := [taskW1, taskW5], nextTaskId := 6, events := [], warnings := [] }

/-! Helper lemmas about the list operations of the embedding. -/

theorem get?_randIndex_mem {α : Type} (l : List α) (r : Nat) (h : l ≠ []) :
    ∃ a, l.get? (randIndex r l.length) = some a ∧ a ∈ l := by
  have hlen : l.length ≠ 0 := by
    simpa [List.length_eq_zero] using h
  have hlt : r % l.length < l.length := Nat.mod_lt _ (Nat.pos_of_ne_zero hlen)
  refine ⟨l.get ⟨r % l.length, hlt⟩, ?_, List.get_mem l _ hlt⟩
  unfold randIndex
  rw [if_neg hlen]
  exact List.get?_eq_get hlt

theorem getRandomTeam_mem (cfg : Config) (r : Nat) (h : cfg.teams ≠ []) :
    ∃ tm, getRandomTeam cfg r = some tm ∧ tm ∈ cfg.teams := by
  simpa [getRandomTeam] using get?_randIndex_mem cfg.teams r h

theorem updateFirst_length (ts : List Task) (taskId : Nat) (f : Task → Task) :
    (updateFirst ts taskId f).length = ts.length := by
  induction ts with
  | nil => rfl
  | cons t rest ih =>
    unfold updateFirst
    by_cases h : t.id == taskId
    · simp [h]
    · simp [h, ih]

theorem updateFirst_map_id (ts : List Task) (taskId : Nat) (f : Task → Task)
    (hf : ∀ t, (f t).id = t.id) :
    (updateFirst ts taskId f).map (fun t => t.id) = ts.map (fun t => t.id) := by
  induction ts with
  | nil => rfl
  | cons t rest ih =>
    unfold updateFirst
    by_cases h : t.id == taskId
    · simp [h, hf]
    · simp [h, ih]

theorem find?_updateFirst (ts : List Task) (taskId : Nat) (f : Task → Task) (tk : Task)
    (hfind : ts.find? (fun t => t.id == taskId) = some tk)
    (hf : ∀ t, (f t).id = t.id) :
    (updateFirst ts taskId f).find? (fun t => t.id == taskId) = some (f tk) := by
  induction ts with
  | nil => simp at hfind
  | cons t rest ih =>
    unfold updateFirst
    by_cases h : (t.id == taskId) = true
    · simp only [List.find?, h] at hfind
      cases hfind
      have hid : ((f tk).id == taskId) = true := by
        rw [hf]
        exact h
      simp only [if_pos h, List.find?, hid]
    · simp only [List.find?, h] at hfind
      simp only [if_neg h, List.find?, h]
      exact ih hfind

theorem find?_append_left {α : Type} (p : α → Bool) (l l2 : List α) (a : α)
    (h : l.find? p = some a) : (l ++ l2).find? p = some a := by
  induction l with
  | nil => simp at h
  | cons x rest ih =>
    by_cases hx : p x = true
    · simp only [List.find?, hx] at h
      cases h
      simp only [List.cons_append, List.find?, hx]
    · simp only [List.find?, hx] at h
      simp only [List.cons_append, List.find?, hx]
      exact ih h

/-- C10: a `moveTask` call whose `taskId` matches no existing task
returns immediately: no error escapes, and the board (task list,
`nextTaskId`, events, warnings) is returned completely unchanged — a
silent no-op. -/
theorem moveTask_missing_task_noop (cfg : Config) (st : BoardState) (taskId : Nat)
    (newCol oldCol : String) (r1 r2 r3 r4 r5 : Nat)
    (h : st.tasks.find? (fun t => t.id == taskId) = none) :
    moveTask cfg st taskId newCol oldCol r1 r2 r3 r4 r5 = (none, st) := by
  unfold moveTask
  rw [h]

theorem moveTask_missing_task_noop_witness :
    stW.tasks.find? (fun t => t.id == 99) = none ∧
    moveTask cfgW stW 99 "doing" "backlog" 0 1 2 3 4 = (none, stW) :=
  ⟨by decide, moveTask_missing_task_noop cfgW stW 99 "doing" "backlog" 0 1 2 3 4 (by decide)⟩

/-- C6 counterexample: a call whose task reference and both column
references are all malformed does not fail loudly — it returns with no
error and the state untouched, because the missing-task check returns
before any column is validated. -/
theorem moveTask_malformed_refs_no_failure :
    stW.tasks.find? (fun t => t.id == 99) = none ∧
    getColumnById cfgW "nope1" = none ∧
    getColumnById cfgW "nope2" = none ∧
    moveTask cfgW stW 99 "nope1" "nope2" 0 0 0 0 0 = (none, stW) := by
  refine ⟨by decide, by decide, by decide, ?_⟩
  decide

/-- C6 (amended): `moveTask` fails loudly (a `TypeError` escapes) when a
*column* reference on the executed path is malformed — a missing source
column always throws once the task is found, and a missing target
column throws on the non-bypass path — but a `taskId` that references
no existing task is a silent no-op, not a loud failure. -/
theorem moveTask_error_behavior (cfg : Config) (st : BoardState) (taskId : Nat)
    (newCol oldCol : String) (r1 r2 r3 r4 r5 : Nat) :
    (st.tasks.find? (fun t => t.id == taskId) = none →
      moveTask cfg st taskId newCol oldCol r1 r2 r3 r4 r5 = (none, st)) ∧
    (∀ tk, st.tasks.find? (fun t => t.id == taskId) = some tk →
      getColumnById cfg oldCol = none →
      (moveTask cfg st taskId newCol oldCol r1 r2 r3 r4 r5).1 = some JsErr.typeError) ∧
    (∀ tk oc, st.tasks.find? (fun t => t.id == taskId) = some tk →
      getColumnById cfg oldCol = some oc → oc.isFinal = false →
      getColumnById cfg newCol = none →
      (moveTask cfg st taskId newCol oldCol r1 r2 r3 r4 r5).1 = some JsErr.typeError) := by
  refine ⟨?_, ?_, ?_⟩
  · intro h
    unfold moveTask
    rw [h]
  · intro tk hfind hold
    unfold moveTask
    rw [hfind, hold]
  · intro tk oc hfind hold hfin hnew
    unfold moveTask
    rw [hfind, hold, hnew]
    simp [hfin]

theorem moveTask_error_behavior_witness :
    stW.tasks.find? (fun t => t.id == 1) = some taskW1 ∧
    getColumnById cfgW "nope" = none ∧
    (moveTask cfgW stW 1 "doing" "nope" 0 0 0 0 0).1 = some JsErr.typeError :=
  ⟨by decide, by decide,
    (moveTask_error_behavior cfgW stW 1 "doing" "nope" 0 0 0 0 0).2.1 taskW1
      (by decide) (by decide)⟩

/-- C7: effect dispatch is total and safe.  A column configured with the
`"random"` sentinel always resolves — by a fresh draw over the full
registry key list — to a name present in the registry and executes that
effect; a configured name absent from the registry only logs a warning
(no effect runs, no domain state changes, nothing is thrown); a column
with no configured effect, or an unknown column, is a no-op. -/
theorem effect_dispatch_safe (cfg : Config) (columnId : String) (r : Nat) (st : BoardState) :
    (∀ col, getColumnById cfg columnId = some col →
      (col.effect = some "random" →
        ∃ name, ALL_EFFECTS.get? (randIndex r ALL_EFFECTS.length) = some name ∧
          name ∈ ALL_EFFECTS ∧
          showEffectForColumn cfg columnId r st =
            { st with events := st.events ++ [.colEffect name columnId] }) ∧
      (∀ name, col.effect = some name → name ≠ "random" → name ≠ "" →
        name ∉ ALL_EFFECTS →
        showEffectForColumn cfg columnId r st =
          { st with warnings := st.warnings ++ [name] }) ∧
      (col.effect = none → showEffectForColumn cfg columnId r st = st)) ∧
    (getColumnById cfg columnId = none → showEffectForColumn cfg columnId r st = st) := by
  constructor
  · intro col hcol
    refine ⟨?_, ?_, ?_⟩
    · intro heff
      obtain ⟨name, hget, hmem⟩ :=
        get?_randIndex_mem ALL_EFFECTS r (by simp [ALL_EFFECTS])
      refine ⟨name, hget, hmem, ?_⟩
      have hcont : ALL_EFFECTS.contains name = true := List.elem_iff.mpr hmem
      rw [List.get?_eq_getElem?] at hget
      simp [showEffectForColumn, hcol, heff, hget, hcont, hmem]
    · intro name heff hrand hempty hmem
      have hbr : (name == "random") = false := beq_eq_false_iff_ne.mpr hrand
      have hbe : (name == "") = false := beq_eq_false_iff_ne.mpr hempty
      simp [showEffectForColumn, hcol, heff, hbr, hbe, hmem]
    · intro heff
      simp [showEffectForColumn, hcol, heff]
  · intro hcol
    simp [showEffectForColumn, hcol]

theorem effect_dispatch_safe_witness :
    getColumnById cfgW "doing" =
      some ⟨"doing", false, some "fixed", some ["t2"], some "random"⟩ ∧
    (∃ name, ALL_EFFECTS.get? (randIndex 7 ALL_EFFECTS.length) = some name ∧
      name ∈ ALL_EFFECTS ∧
      showEffectForColumn cfgW "doing" 7 stW =
        { stW with events := stW.events ++ [.colEffect name "doing"] }) :=
  ⟨by decide,
    ((effect_dispatch_safe cfgW "doing" 7 stW).1
      ⟨"doing", false, some "fixed", some ["t2"], some "random"⟩ (by decide)).1 rfl⟩

/-- Fixture configuration with empty greeting pools (a flat empty pool
for column `"c"` and an empty per-team pool for team `"t"` in column
`"d"`). -/
def cfgE : Config :=
  { teams := [], columns := [],
    greetings := [("c", .flat []), ("d", .perTeam [("t", [])])],
    initialTasks := [] }

/-- C8 counterexample: with an empty flat greeting pool configured for
a column, `getGreetingForTask` does not return a string — indexing the
empty array yields the JS `undefined` (here `none`), not the
placeholder — so the function is not string-valued at every input pair
as claimed (it still does not throw). -/
theorem greeting_empty_pool_no_string :
    getGreetingForTask cfgE "c" "anyTeam" 0 = none ∧
    getGreetingForTask cfgE "d" "t" 0 = none := by
  constructor
  · decide
  · decide

/-- C8 (amended): `getGreetingForTask` never raises, and for every
column id and team id: it returns the fixed placeholder string when the
column has no greeting pool or the team has no entry in a per-team
pool; it returns a uniformly drawn member whenever the selected (flat
or per-team) pool is non-empty; and when the selected pool is an empty
array it returns the JS `undefined` (no string) instead of a member. -/
theorem getGreeting_soft_fallback (cfg : Config) (c t : String) (r : Nat) :
    (greetLookup cfg.greetings c = none →
      getGreetingForTask cfg c t r = some loadingPlaceholder) ∧
    (∀ pool, greetLookup cfg.greetings c = some (.flat pool) →
      (pool = [] → getGreetingForTask cfg c t r = none) ∧
      (pool ≠ [] → ∃ s, getGreetingForTask cfg c t r = some s ∧ s ∈ pool)) ∧
    (∀ pools, greetLookup cfg.greetings c = some (.perTeam pools) →
      (poolLookup pools t = none →
        getGreetingForTask cfg c t r = some loadingPlaceholder) ∧
      (∀ tp, poolLookup pools t = some tp →
        (tp = [] → getGreetingForTask cfg c t r = none) ∧
        (tp ≠ [] → ∃ s, getGreetingForTask cfg c t r = some s ∧ s ∈ tp))) := by
  refine ⟨?_, ?_, ?_⟩
  · intro h
    simp [getGreetingForTask, h]
  · intro pool h
    constructor
    · intro hnil
      simp [getGreetingForTask, h, hnil, randIndex]
    · intro hne
      obtain ⟨s, hget, hmem⟩ := get?_randIndex_mem pool r hne
      refine ⟨s, ?_, hmem⟩
      rw [List.get?_eq_getElem?] at hget
      simp [getGreetingForTask, h, hget]
  · intro pools h
    constructor
    · intro hlk
      simp [getGreetingForTask, h, hlk]
    · intro tp hlk
      constructor
      · intro hnil
        simp [getGreetingForTask, h, hlk, hnil, randIndex]
      · intro hne
        obtain ⟨s, hget, hmem⟩ := get?_randIndex_mem tp r hne
        refine ⟨s, ?_, hmem⟩
        rw [List.get?_eq_getElem?] at hget
        simp [getGreetingForTask, h, hlk, hget]

theorem getGreeting_soft_fallback_witness :
    greetLookup cfgW.greetings "backlog" = some (.flat ["hi", "yo"]) ∧
    (∃ s, getGreetingForTask cfgW "backlog" "t9" 3 = some s ∧ s ∈ ["hi", "yo"]) :=
  ⟨by decide,
    ((getGreeting_soft_fallback cfgW "backlog" "t9" 3).2.1 ["hi", "yo"]
      (by decide)).2 (by decide)⟩

theorem getRandomTeam_mem_of_some (cfg : Config) (r : Nat) (tm : Team)
    (h : getRandomTeam cfg r = some tm) : tm ∈ cfg.teams :=
  List.get?_mem h

/-- The assignee-resolution block always succeeds when the team list is
non-empty, and its result falls in the set the target column's rules
designate. -/
theorem resolveNewTeamId_ok (cfg : Config) (newCol : Column) (r : Nat)
    (hteams : cfg.teams ≠ []) :
    ∃ tmId, resolveNewTeamId cfg newCol r = .ok tmId ∧
      ((newCol.assigneeMode = some "random" ∨ newCol.assignees.getD [] = []) →
        ∃ tm, getRandomTeam cfg r = some tm ∧ tmId = tm.id ∧ tm ∈ cfg.teams) ∧
      (newCol.assigneeMode ≠ some "random" →
        ∀ a, newCol.assignees.getD [] = [a] → tmId = a) ∧
      (newCol.assigneeMode ≠ some "random" → 2 ≤ (newCol.assignees.getD []).length →
        tmId ∈ newCol.assignees.getD []) := by
  by_cases hA :
      (newCol.assigneeMode == some "random" || (newCol.assignees.getD []).length == 0) = true
  · obtain ⟨tm, htm, hmem⟩ := getRandomTeam_mem cfg r hteams
    refine ⟨tm.id, ?_, fun _ => ⟨tm, htm, rfl, hmem⟩, ?_, ?_⟩
    · simp only [resolveNewTeamId, hA, if_pos, htm]
    · intro hmode a ha
      rcases Bool.or_eq_true_iff.mp hA with hm | hl
      · exact absurd (eq_of_beq hm) hmode
      · rw [ha] at hl
        simp at hl
    · intro hmode hlen
      rcases Bool.or_eq_true_iff.mp hA with hm | hl
      · exact absurd (eq_of_beq hm) hmode
      · have hl0 := eq_of_beq hl
        omega
  · have hA' := hA
    rw [Bool.or_eq_true_iff] at hA'
    push_neg at hA'
    by_cases hone : ((newCol.assignees.getD []).length == 1) = true
    · refine ⟨(newCol.assignees.getD []).getD 0 "", ?_, ?_, ?_, ?_⟩
      · simp only [resolveNewTeamId, hA, if_neg, Bool.false_eq_true, not_false_iff, hone,
          if_pos]
      · intro h
        rcases h with hm | he
        · exact absurd (by simp [hm]) hA
        · exact absurd (by simp [he]) hA
      · intro _ a ha
        rw [ha]
        rfl
      · intro _ hlen
        have := eq_of_beq hone
        omega
    · have hlen0 : (newCol.assignees.getD []).length ≠ 0 := by
        intro h
        exact hA (by simp [h])
      have hnil : newCol.assignees.getD [] ≠ [] := by
        intro h
        exact hlen0 (by simp [h])
      obtain ⟨a, hget, hmem⟩ := get?_randIndex_mem (newCol.assignees.getD []) r hnil
      refine ⟨(newCol.assignees.getD []).getD (randIndex r (newCol.assignees.getD []).length) "",
        ?_, ?_, ?_, ?_⟩
      · simp only [resolveNewTeamId, hA, if_neg, Bool.false_eq_true, not_false_iff, hone]
      · intro h
        rcases h with hm | he
        · exact absurd (by simp [hm]) hA
        · exact absurd (by simp [he]) hA
      · intro _ b hb
        exact absurd (by simp [hb]) hone
      · intro _ _
        rw [List.getD_eq_getElem?_getD, ← List.get?_eq_getElem?, hget]
        exact hmem

theorem createNewTaskInBacklog_shape (cfg : Config) (st : BoardState) (r1 r2 : Nat)
    (hteams : cfg.teams ≠ []) :
    (createNewTaskInBacklog cfg st r1 r2).1 = none ∧
    ((createNewTaskInBacklog cfg st r1 r2).2 = st ∨
      ∃ tm, getRandomTeam cfg r1 = some tm ∧ tm ∈ cfg.teams ∧
        (createNewTaskInBacklog cfg st r1 r2).2 =
          { st with
            tasks := st.tasks ++
              [{ id := st.nextTaskId, columnId := "backlog", teamId := tm.id,
                 description := getGreetingForTask cfg "backlog" tm.id r2 }],
            nextTaskId := st.nextTaskId + 1,
            events := st.events ++ [.render] }) := by
  obtain ⟨tm, htm, hmem⟩ := getRandomTeam_mem cfg r1 hteams
  cases hbk : cfg.columns.find? (fun c => c.id == "backlog") with
  | none => simp [createNewTaskInBacklog, hbk]
  | some bc =>
    constructor
    · simp [createNewTaskInBacklog, hbk, htm]
    · right
      exact ⟨tm, htm, hmem, by simp [createNewTaskInBacklog, hbk, htm, renderTasks]⟩

theorem updateFirst_updateFirst (ts : List Task) (taskId : Nat) (f g : Task → Task)
    (hf : ∀ t, (f t).id = t.id) :
    updateFirst (updateFirst ts taskId f) taskId g =
      updateFirst ts taskId (fun t => g (f t)) := by
  induction ts with
  | nil => rfl
  | cons t rest ih =>
    unfold updateFirst
    by_cases h : (t.id == taskId) = true
    · have hf2 : ((f t).id == taskId) = true := by
        rw [hf]
        exact h
      simp only [if_pos h, updateFirst, if_pos hf2]
    · simp only [if_neg h, updateFirst, if_neg h, ih]

theorem showEffectForColumn_frame (cfg : Config) (c : String) (r : Nat) (st : BoardState) :
    (showEffectForColumn cfg c r st).tasks = st.tasks ∧
    (showEffectForColumn cfg c r st).nextTaskId = st.nextTaskId := by
  unfold showEffectForColumn
  dsimp only
  repeat' split
  all_goals exact ⟨rfl, rfl⟩

/-- The rewrite `moveTask` applies to the moved task on the non-bypass
path: new column, re-resolved team, re-rolled description. -/
def movedTask (cfg : Config) (target tmId : String) (r2 : Nat) (t : Task) : Task :=
  { id := t.id, columnId := target, teamId := tmId,
    description := getGreetingForTask cfg target tmId r2 }

/-- C2: moving a task whose source column is final takes the bypass
branch: the task itself keeps its column, team and description; exactly
one brand-new task is appended, in the `"backlog"` column, with a
randomly drawn team and a re-rolled description and the next fresh id;
the completion celebration (confetti) fires; and nothing else happens —
the target column is not even consulted (the `target` argument here is
arbitrary, possibly invalid). -/
theorem moveTask_bypass_spawns_backlog (cfg : Config) (st : BoardState) (task : Task)
    (target : String) (r1 r2 r3 r4 r5 : Nat) (oc bc : Column) (tm : Team)
    (hfind : st.tasks.find? (fun t => t.id == task.id) = some task)
    (hold : getColumnById cfg task.columnId = some oc)
    (hfin : oc.isFinal = true)
    (hbk : cfg.columns.find? (fun c => c.id == "backlog") = some bc)
    (htm : getRandomTeam cfg r3 = some tm) :
    moveTask cfg st task.id target task.columnId r1 r2 r3 r4 r5 =
      (none,
        { tasks := st.tasks ++
            [{ id := st.nextTaskId, columnId := "backlog", teamId := tm.id,
               description := getGreetingForTask cfg "backlog" tm.id r4 }],
          nextTaskId := st.nextTaskId + 1,
          events := st.events ++ [.render, .confetti],
          warnings := st.warnings }) ∧
    tm ∈ cfg.teams := by
  constructor
  · simp [moveTask, hfind, hold, hfin, createNewTaskInBacklog, hbk, htm,
      renderTasks, showConfetti]
  · exact getRandomTeam_mem_of_some cfg r3 tm htm

/-- Fixture task sitting in the final `production` column. -/
def taskP : Task :=
  { id := 9, columnId := "production", teamId := "t2", description := some "go" }

/-- Fixture board with `taskP` only. -/
def stP : BoardState :=
  { tasks := [taskP], nextTaskId := 10, events := [], warnings := [] }

theorem moveTask_bypass_spawns_backlog_witness :
    stP.tasks.find? (fun t => t.id == taskP.id) = some taskP ∧
    getColumnById cfgW taskP.columnId =
      some ⟨"production", true, none, none, some "confetti"⟩ ∧
    (moveTask cfgW stP taskP.id "doing" taskP.columnId 0 0 1 0 0 =
      (none,
        { tasks := stP.tasks ++
            [{ id := stP.nextTaskId, columnId := "backlog", teamId := (⟨"t2"⟩ : Team).id,
               description := getGreetingForTask cfgW "backlog" (⟨"t2"⟩ : Team).id 0 }],
          nextTaskId := stP.nextTaskId + 1,
          events := stP.events ++ [.render, .confetti],
          warnings := stP.warnings }) ∧
      (⟨"t2"⟩ : Team) ∈ cfgW.teams) :=
  ⟨by decide, by decide,
    moveTask_bypass_spawns_backlog cfgW stP taskP "doing" 0 0 1 0 0
      ⟨"production", true, none, none, some "confetti"⟩
      ⟨"backlog", false, none, none, some "sparkles"⟩
      ⟨"t2"⟩ (by decide) (by decide) (by decide) (by decide) (by decide)⟩

/-- C3: a non-bypass move that lands on a final target column both
relocates the task (column, re-resolved team, re-rolled description)
and, as a side effect, appends exactly one new backlog task (the task
count grows by exactly one); the celebration fired is the confetti
effect — the target column's configured effect is not dispatched (the
event log gains only `confetti` and the two re-render signals). -/
theorem moveTask_to_final_spawns_and_celebrates (cfg : Config) (st : BoardState)
    (taskId : Nat) (task : Task) (target oldColumnId : String)
    (r1 r2 r3 r4 r5 : Nat) (oc nc bc : Column)
    (hfind : st.tasks.find? (fun t => t.id == taskId) = some task)
    (hold : getColumnById cfg oldColumnId = some oc)
    (hnf : oc.isFinal = false)
    (hnew : getColumnById cfg target = some nc)
    (hfin : nc.isFinal = true)
    (hbk : cfg.columns.find? (fun c => c.id == "backlog") = some bc)
    (hteams : cfg.teams ≠ []) :
    ∃ tmId tm, getRandomTeam cfg r3 = some tm ∧ tm ∈ cfg.teams ∧
      moveTask cfg st taskId target oldColumnId r1 r2 r3 r4 r5 =
        (none,
          { tasks :=
              updateFirst st.tasks taskId (movedTask cfg target tmId r2) ++
              [{ id := st.nextTaskId, columnId := "backlog", teamId := tm.id,
                 description := getGreetingForTask cfg "backlog" tm.id r4 }],
            nextTaskId := st.nextTaskId + 1,
            events := st.events ++ [.confetti, .render, .render],
            warnings := st.warnings }) ∧
      (moveTask cfg st taskId target oldColumnId r1 r2 r3 r4 r5).2.tasks.length =
        st.tasks.length + 1 := by
  obtain ⟨tmId, hres, _, _, _⟩ := resolveNewTeamId_ok cfg nc r1 hteams
  obtain ⟨tm, htm, hmem⟩ := getRandomTeam_mem cfg r3 hteams
  have hmain : moveTask cfg st taskId target oldColumnId r1 r2 r3 r4 r5 =
      (none,
        { tasks :=
            updateFirst st.tasks taskId (movedTask cfg target tmId r2) ++
            [{ id := st.nextTaskId, columnId := "backlog", teamId := tm.id,
               description := getGreetingForTask cfg "backlog" tm.id r4 }],
          nextTaskId := st.nextTaskId + 1,
          events := st.events ++ [.confetti, .render, .render],
          warnings := st.warnings }) := by
    simp [moveTask, hfind, hold, hnf, hnew, hfin, hres, createNewTaskInBacklog, hbk, htm,
      showConfetti, renderTasks, updateFirst_updateFirst, movedTask]
    rfl
  refine ⟨tmId, tm, htm, hmem, hmain, ?_⟩
  rw [hmain]
  simp [updateFirst_length]

theorem moveTask_to_final_witness :
    stW.tasks.find? (fun t => t.id == 1) = some taskW1 ∧
    getColumnById cfgW "production" =
      some ⟨"production", true, none, none, some "confetti"⟩ ∧
    (∃ tmId tm, getRandomTeam cfgW 0 = some tm ∧ tm ∈ cfgW.teams ∧
      moveTask cfgW stW 1 "production" "backlog" 0 0 0 0 0 =
        (none,
          { tasks :=
              updateFirst stW.tasks 1 (movedTask cfgW "production" tmId 0) ++
              [{ id := stW.nextTaskId, columnId := "backlog", teamId := tm.id,
                 description := getGreetingForTask cfgW "backlog" tm.id 0 }],
            nextTaskId := stW.nextTaskId + 1,
            events := stW.events ++ [.confetti, .render, .render],
            warnings := stW.warnings }) ∧
      (moveTask cfgW stW 1 "production" "backlog" 0 0 0 0 0).2.tasks.length =
        stW.tasks.length + 1) :=
  ⟨by decide, by decide,
    moveTask_to_final_spawns_and_celebrates cfgW stW 1 taskW1 "production" "backlog"
      0 0 0 0 0
      ⟨"backlog", false, none, none, some "sparkles"⟩
      ⟨"production", true, none, none, some "confetti"⟩
      ⟨"backlog", false, none, none, some "sparkles"⟩
      (by decide) (by decide) (by decide) (by decide) (by decide) (by decide)
      (by decide)⟩

/-- C1: on the non-bypass path (task exists, source column exists and
is not final, target column exists, team list non-empty) `moveTask`
completes without error and rewrites the moved task to exactly
`movedTask`: its `columnId` becomes the target, its `teamId` is
resolved by the target column's rules — a team drawn from all teams
when `assigneeMode` is `"random"` or the assignee list is empty or
absent, the single entry when the list has exactly one, a draw from
the listed assignees otherwise — and its description is re-rolled from
the target column's greeting pool for the new team. -/
theorem moveTask_nonbypass_updates_task (cfg : Config) (st : BoardState)
    (taskId : Nat) (task : Task) (newColumnId oldColumnId : String)
    (r1 r2 r3 r4 r5 : Nat) (oc nc : Column)
    (hfind : st.tasks.find? (fun t => t.id == taskId) = some task)
    (hold : getColumnById cfg oldColumnId = some oc)
    (hnf : oc.isFinal = false)
    (hnew : getColumnById cfg newColumnId = some nc)
    (hteams : cfg.teams ≠ []) :
    ∃ tmId,
      (moveTask cfg st taskId newColumnId oldColumnId r1 r2 r3 r4 r5).1 = none ∧
      (moveTask cfg st taskId newColumnId oldColumnId r1 r2 r3 r4 r5).2.tasks.find?
          (fun t => t.id == taskId) = some (movedTask cfg newColumnId tmId r2 task) ∧
      ((nc.assigneeMode = some "random" ∨ nc.assignees.getD [] = []) →
        ∃ tm, getRandomTeam cfg r1 = some tm ∧ tmId = tm.id ∧ tm ∈ cfg.teams) ∧
      (nc.assigneeMode ≠ some "random" → ∀ a, nc.assignees.getD [] = [a] → tmId = a) ∧
      (nc.assigneeMode ≠ some "random" → 2 ≤ (nc.assignees.getD []).length →
        tmId ∈ nc.assignees.getD []) := by
  obtain ⟨tmId, hres, hrand, hsingle, hmulti⟩ := resolveNewTeamId_ok cfg nc r1 hteams
  have hfindupd :
      (updateFirst st.tasks taskId (movedTask cfg newColumnId tmId r2)).find?
        (fun t => t.id == taskId) = some (movedTask cfg newColumnId tmId r2 task) :=
    find?_updateFirst st.tasks taskId _ task hfind (fun t => rfl)
  refine ⟨tmId, ?_⟩
  cases hfin : nc.isFinal with
  | false =>
    have hmain : moveTask cfg st taskId newColumnId oldColumnId r1 r2 r3 r4 r5 =
        (none, renderTasks (showEffectForColumn cfg newColumnId r5
          { st with tasks := updateFirst st.tasks taskId (movedTask cfg newColumnId tmId r2) })) := by
      simp [moveTask, hfind, hold, hnf, hnew, hres, hfin, updateFirst_updateFirst, movedTask]
      rfl
    refine ⟨by rw [hmain], ?_, hrand, hsingle, hmulti⟩
    rw [hmain]
    dsimp only [renderTasks]
    rw [(showEffectForColumn_frame cfg newColumnId r5 _).1]
    exact hfindupd
  | true =>
    obtain ⟨tm3, htm3, _⟩ := getRandomTeam_mem cfg r3 hteams
    cases hbk : cfg.columns.find? (fun c => c.id == "backlog") with
    | none =>
      have hmain : moveTask cfg st taskId newColumnId oldColumnId r1 r2 r3 r4 r5 =
          (none, renderTasks (showConfetti
            { st with tasks := updateFirst st.tasks taskId (movedTask cfg newColumnId tmId r2) })) := by
        simp [moveTask, hfind, hold, hnf, hnew, hres, hfin, createNewTaskInBacklog, hbk,
          updateFirst_updateFirst, movedTask, renderTasks, showConfetti]
        rfl
      refine ⟨by rw [hmain], ?_, hrand, hsingle, hmulti⟩
      rw [hmain]
      exact hfindupd
    | some bc =>
      have hmain : moveTask cfg st taskId newColumnId oldColumnId r1 r2 r3 r4 r5 =
          (none,
            { tasks := updateFirst st.tasks taskId (movedTask cfg newColumnId tmId r2) ++
                [{ id := st.nextTaskId, columnId := "backlog", teamId := tm3.id,
                   description := getGreetingForTask cfg "backlog" tm3.id r4 }],
              nextTaskId := st.nextTaskId + 1,
              events := st.events ++ [.confetti, .render, .render],
              warnings := st.warnings }) := by
        simp [moveTask, hfind, hold, hnf, hnew, hres, hfin, createNewTaskInBacklog, hbk, htm3,
          updateFirst_updateFirst, movedTask, renderTasks, showConfetti]
        rfl
      refine ⟨by rw [hmain], ?_, hrand, hsingle, hmulti⟩
      rw [hmain]
      exact find?_append_left _ _ _ _ hfindupd

theorem moveTask_nonbypass_witness :
    stW.tasks.find? (fun t => t.id == 1) = some taskW1 ∧
    getColumnById cfgW "backlog" = some ⟨"backlog", false, none, none, some "sparkles"⟩ ∧
    getColumnById cfgW "doing" = some ⟨"doing", false, some "fixed", some ["t2"], some "random"⟩ ∧
    cfgW.teams ≠ [] ∧
    (∃ tmId,
      (moveTask cfgW stW 1 "doing" "backlog" 0 1 2 3 4).1 = none ∧
      (moveTask cfgW stW 1 "doing" "backlog" 0 1 2 3 4).2.tasks.find?
          (fun t => t.id == 1) = some (movedTask cfgW "doing" tmId 1 taskW1) ∧
      (((⟨"doing", false, some "fixed", some ["t2"], some "random"⟩ : Column).assigneeMode =
          some "random" ∨
        (⟨"doing", false, some "fixed", some ["t2"], some "random"⟩ : Column).assignees.getD [] =
          []) →
        ∃ tm, getRandomTeam cfgW 0 = some tm ∧ tmId = tm.id ∧ tm ∈ cfgW.teams) ∧
      ((⟨"doing", false, some "fixed", some ["t2"], some "random"⟩ : Column).assigneeMode ≠
          some "random" →
        ∀ a, (⟨"doing", false, some "fixed", some ["t2"], some "random"⟩ : Column).assignees.getD
            [] = [a] → tmId = a) ∧
      ((⟨"doing", false, some "fixed", some ["t2"], some "random"⟩ : Column).assigneeMode ≠
          some "random" →
        2 ≤ ((⟨"doing", false, some "fixed", some ["t2"], some "random"⟩ : Column).assignees.getD
            []).length →
        tmId ∈ (⟨"doing", false, some "fixed", some ["t2"], some "random"⟩ : Column).assignees.getD
            [])) :=
  ⟨by decide, by decide, by decide, by decide,
    moveTask_nonbypass_updates_task cfgW stW 1 taskW1 "doing" "backlog" 0 1 2 3 4
      ⟨"backlog", false, none, none, some "sparkles"⟩
      ⟨"doing", false, some "fixed", some ["t2"], some "random"⟩
      (by decide) (by decide) (by decide) (by decide) (by decide)⟩

theorem styleOf_cons (p : Nat × Style) (rest : List (Nat × Style)) (eid : Nat) :
    styleOf (p :: rest) eid =
      if (p.1 == eid) = true then some p.2 else styleOf rest eid := by
  unfold styleOf
  by_cases hp : (p.1 == eid) = true
  · simp only [List.find?, hp, if_pos]
    rfl
  · simp only [List.find?, hp, if_neg, Bool.false_eq_true, not_false_iff]

theorem styleOf_setStyle (l : List (Nat × Style)) (eid : Nat) (s : Style)
    (h : (styleOf l eid).isSome) : styleOf (setStyle l eid s) eid = some s := by
  induction l with
  | nil => simp [styleOf] at h
  | cons p rest ih =>
    rw [styleOf_cons] at h
    rw [show setStyle (p :: rest) eid s =
      (if (p.1 == eid) = true then (p.1, s) else p) :: setStyle rest eid s from rfl]
    by_cases hp : (p.1 == eid) = true
    · rw [if_pos hp, styleOf_cons]
      simp [hp]
    · rw [if_neg hp, styleOf_cons, if_neg hp]
      rw [if_neg hp] at h
      exact ih h

/-- `cleanupDragState`, run on any state `m` sharing `app`'s gesture and
styles, performs the full teardown relative to `app`. -/
theorem cleanupDragState_restores (app m : AppState)
    (hg : m.gesture = app.gesture) (hs : m.styles = app.styles) :
    restoresAndIdles app (cleanupDragState m) := by
  unfold restoresAndIdles cleanupDragState
  dsimp only
  refine ⟨rfl, rfl, rfl, rfl, rfl, rfl, rfl, rfl, rfl, rfl, ?_⟩
  intro eid helem hsome
  rw [hg, helem]
  dsimp only
  rw [hs]
  exact styleOf_setStyle app.styles eid defaultStyle hsome

/-- C5: with an active drag and a recorded last-hovered column (both
column-id strings truthy, and the `moveTask` call completing without an
exception), the `touchcancel` listener invokes `moveTask` with the
dragged task's id, the recorded column as target and the task's current
column as source — the same invocation the drop handler would make from
the same state — and runs `cleanupDragState` afterwards; when no hover
column was ever recorded, the cancel performs no move and still runs
cleanup. -/
theorem touchcancel_completes_drag (cfg : Config) (app : AppState)
    (r1 r2 r3 r4 r5 : Nat) :
    (∀ task newColumnId,
      app.gesture.isDragging = true →
      app.gesture.draggedTask = some task →
      app.gesture.lastColumnOver = some newColumnId →
      newColumnId ≠ "" → task.columnId ≠ "" →
      (moveTask cfg app.board task.id newColumnId task.columnId r1 r2 r3 r4 r5).1 = none →
      handleTouchCancel cfg app r1 r2 r3 r4 r5 =
        (none, cleanupDragState
          { app with
            board := (moveTask cfg app.board task.id newColumnId task.columnId r1 r2 r3 r4 r5).2
            moveCalls := app.moveCalls ++ [(task.id, newColumnId, task.columnId)] }) ∧
      (∀ eid, app.gesture.draggedElement = some eid →
        handleTouchEnd cfg app r1 r2 r3 r4 r5 = handleTouchCancel cfg app r1 r2 r3 r4 r5)) ∧
    (app.gesture.lastColumnOver = none →
      handleTouchCancel cfg app r1 r2 r3 r4 r5 = (none, cleanupDragState app)) := by
  constructor
  · intro task newColumnId hdrag htask hover hne1 hne2 hmv
    have hb1 : (newColumnId == "") = false := beq_eq_false_iff_ne.mpr hne1
    have hb2 : (task.columnId == "") = false := beq_eq_false_iff_ne.mpr hne2
    rcases hE : moveTask cfg app.board task.id newColumnId task.columnId r1 r2 r3 r4 r5
      with ⟨e, b⟩
    rw [hE] at hmv
    dsimp at hmv
    subst hmv
    constructor
    · simp [handleTouchCancel, htask, hover, hdrag, hb1, hb2, hE]
    · intro eid helem
      simp [handleTouchEnd, handleTouchCancel, htask, hover, helem, hdrag, hb1, hb2, hE]
  · intro hover
    rcases htask : app.gesture.draggedTask with _ | task
    · simp [handleTouchCancel, htask]
    · simp [handleTouchCancel, htask, hover]

/-- Fixture idle gesture state. -/
def gestureIdle : GestureState :=
  { touchStartX := 0, touchStartY := 0, isDragging := false, draggedTask := none,
    draggedElement := none, initialScrollTop := 0, dragDirection := none,
    lastColumnOver := none, currentTouchEvent := none, touchStartTime := 0,
    hasMoved := false, touchTimeout := none }

/-- Fixture gesture state mid-drag: task 1 is dragged over `doing`. -/
def gestureDrag : GestureState :=
  { gestureIdle with
    isDragging := true, draggedTask := some taskW1, draggedElement := some 1,
    lastColumnOver := some "doing", currentTouchEvent := some (),
    touchStartTime := 5, hasMoved := true }

/-- Fixture app state mid-drag. -/
def appDrag : AppState :=
  { board := stW, gesture := gestureDrag,
    styles := [(1, { defaultStyle with classTouchDragging := true, position := "fixed" })],
    dragOverCols := ["doing"], moveCalls := [] }

theorem touchcancel_completes_drag_witness :
    appDrag.gesture.isDragging = true ∧
    appDrag.gesture.draggedTask = some taskW1 ∧
    appDrag.gesture.lastColumnOver = some "doing" ∧
    (moveTask cfgW appDrag.board taskW1.id "doing" taskW1.columnId 0 1 2 3 4).1 = none ∧
    (handleTouchCancel cfgW appDrag 0 1 2 3 4 =
      (none, cleanupDragState
        { appDrag with
          board := (moveTask cfgW appDrag.board taskW1.id "doing" taskW1.columnId 0 1 2 3 4).2
          moveCalls := appDrag.moveCalls ++ [(taskW1.id, "doing", taskW1.columnId)] }) ∧
      (∀ eid, appDrag.gesture.draggedElement = some eid →
        handleTouchEnd cfgW appDrag 0 1 2 3 4 = handleTouchCancel cfgW appDrag 0 1 2 3 4)) :=
  ⟨rfl, rfl, rfl, by decide,
    (touchcancel_completes_drag cfgW appDrag 0 1 2 3 4).1 taskW1 "doing" rfl rfl rfl
      (by decide) (by decide) (by decide)⟩

/-- C9: drag-session teardown from every exit path.  `cleanupDragState`
is idempotent and, wherever it runs, restores the dragged element's
inline styles, classes and dataset entry to their pre-drag (creation)
values and resets every drag-session variable and column highlight to
the idle configuration.  Both terminal gesture handlers — `touchend`
(the drop path, which is also how a jitter-aborted gesture ends when
the finger lifts) and `touchcancel` (the cancel path) — finish with
this teardown whenever they return normally (an exception escaping the
embedded `moveTask` call is the only path that skips it). -/
theorem cleanup_every_exit :
    (∀ app, cleanupDragState (cleanupDragState app) = cleanupDragState app) ∧
    (∀ app, restoresAndIdles app (cleanupDragState app)) ∧
    (∀ cfg app r1 r2 r3 r4 r5,
      ((handleTouchEnd cfg app r1 r2 r3 r4 r5).1 = none →
        restoresAndIdles app (handleTouchEnd cfg app r1 r2 r3 r4 r5).2) ∧
      ((handleTouchCancel cfg app r1 r2 r3 r4 r5).1 = none →
        restoresAndIdles app (handleTouchCancel cfg app r1 r2 r3 r4 r5).2)) := by
  refine ⟨?_, ?_, ?_⟩
  · intro app
    rfl
  · intro app
    exact cleanupDragState_restores app app rfl rfl
  · intro cfg app r1 r2 r3 r4 r5
    constructor
    · rcases htask : app.gesture.draggedTask with _ | task
      · intro _
        have hEnd : handleTouchEnd cfg app r1 r2 r3 r4 r5 = (none, cleanupDragState app) := by
          simp [handleTouchEnd, htask]
        rw [hEnd]
        exact cleanupDragState_restores app app rfl rfl
      · rcases helem : app.gesture.draggedElement with _ | eid
        · intro _
          have hEnd : handleTouchEnd cfg app r1 r2 r3 r4 r5 = (none, cleanupDragState app) := by
            simp [handleTouchEnd, htask, helem]
          rw [hEnd]
          exact cleanupDragState_restores app app rfl rfl
        · cases hdrag : app.gesture.isDragging with
          | false =>
            intro _
            have hEnd : handleTouchEnd cfg app r1 r2 r3 r4 r5 = (none, cleanupDragState app) := by
              simp [handleTouchEnd, htask, helem, hdrag]
            rw [hEnd]
            exact cleanupDragState_restores app app rfl rfl
          | true =>
            rcases hover : app.gesture.lastColumnOver with _ | colId
            · intro _
              have hEnd : handleTouchEnd cfg app r1 r2 r3 r4 r5 =
                  (none, cleanupDragState app) := by
                simp [handleTouchEnd, htask, helem, hdrag, hover]
              rw [hEnd]
              exact cleanupDragState_restores app app rfl rfl
            · by_cases hbe : (colId == "") = true
              · intro _
                have hEnd : handleTouchEnd cfg app r1 r2 r3 r4 r5 =
                    (none, cleanupDragState app) := by
                  simp [handleTouchEnd, htask, helem, hdrag, hover, hbe]
                rw [hEnd]
                exact cleanupDragState_restores app app rfl rfl
              · have hbe2 : (colId == "") = false := by
                  simpa using hbe
                rcases hE : moveTask cfg app.board task.id colId task.columnId r1 r2 r3 r4 r5
                  with ⟨e, b⟩
                cases e with
                | some err =>
                  intro hnone
                  simp [handleTouchEnd, htask, helem, hdrag, hover, hbe2, hE] at hnone
                | none =>
                  intro _
                  have hEnd : handleTouchEnd cfg app r1 r2 r3 r4 r5 =
                      (none, cleanupDragState
                        { app with
                          board := b
                          moveCalls := app.moveCalls ++ [(task.id, colId, task.columnId)] }) := by
                    simp [handleTouchEnd, htask, helem, hdrag, hover, hbe2, hE]
                  rw [hEnd]
                  exact cleanupDragState_restores app _ rfl rfl
    · rcases htask : app.gesture.draggedTask with _ | task
      · intro _
        have hEnd : handleTouchCancel cfg app r1 r2 r3 r4 r5 = (none, cleanupDragState app) := by
          simp [handleTouchCancel, htask]
        rw [hEnd]
        exact cleanupDragState_restores app app rfl rfl
      · rcases hover : app.gesture.lastColumnOver with _ | colId
        · intro _
          have hEnd : handleTouchCancel cfg app r1 r2 r3 r4 r5 =
              (none, cleanupDragState app) := by
            simp [handleTouchCancel, htask, hover]
          rw [hEnd]
          exact cleanupDragState_restores app app rfl rfl
        · by_cases hcond :
            (app.gesture.isDragging && !(colId == "") && !(task.columnId == "")) = true
          · rcases hE : moveTask cfg app.board task.id colId task.columnId r1 r2 r3 r4 r5
              with ⟨e, b⟩
            cases e with
            | some err =>
              intro hnone
              simp [handleTouchCancel, htask, hover, hcond, hE] at hnone
            | none =>
              intro _
              have hEnd : handleTouchCancel cfg app r1 r2 r3 r4 r5 =
                  (none, cleanupDragState
                    { app with
                      board := b
                      moveCalls := app.moveCalls ++ [(task.id, colId, task.columnId)] }) := by
                simp [handleTouchCancel, htask, hover, hcond, hE]
              rw [hEnd]
              exact cleanupDragState_restores app _ rfl rfl
          · have hcond2 :
                (app.gesture.isDragging && !(colId == "") && !(task.columnId == "")) = false := by
              simpa using hcond
            intro _
            have hEnd : handleTouchCancel cfg app r1 r2 r3 r4 r5 =
                (none, cleanupDragState app) := by
              simp [handleTouchCancel, htask, hover, hcond2]
            rw [hEnd]
            exact cleanupDragState_restores app app rfl rfl

/-- Fixture idle app state. -/
def appW0 : AppState :=
  { board := stW, gesture := gestureIdle, styles := [(1, defaultStyle)],
    dragOverCols := [], moveCalls := [] }

theorem cleanup_every_exit_witness :
    (handleTouchEnd cfgW appW0 0 0 0 0 0).1 = none ∧
    restoresAndIdles appW0 (handleTouchEnd cfgW appW0 0 0 0 0 0).2 :=
  ⟨by decide, (cleanup_every_exit.2.2 cfgW appW0 0 0 0 0 0).1 (by decide)⟩

/-- The effect of one engine operation on the id-relevant state: either
the task-id list is unchanged (and `nextTaskId` did not decrease), or
exactly the task with id `nextTaskId` was appended and `nextTaskId`
was incremented. -/
def stepShape (st st2 : BoardState) : Prop :=
  (taskIds st2 = taskIds st ∧ st.nextTaskId ≤ st2.nextTaskId) ∨
  (taskIds st2 = taskIds st ++ [st.nextTaskId] ∧ st2.nextTaskId = st.nextTaskId + 1)

theorem stepShape_congr {st a b : BoardState} (hids : taskIds b = taskIds a)
    (hnext : b.nextTaskId = a.nextTaskId) (h : stepShape st a) : stepShape st b := by
  rcases h with ⟨h1, h2⟩ | ⟨h1, h2⟩
  · exact Or.inl ⟨by rw [hids, h1], by omega⟩
  · exact Or.inr ⟨by rw [hids, h1], by omega⟩

theorem stepShape_chain {st a b : BoardState} (hids : taskIds a = taskIds st)
    (hnext : a.nextTaskId = st.nextTaskId) (h : stepShape a b) : stepShape st b := by
  rcases h with ⟨h1, h2⟩ | ⟨h1, h2⟩
  · exact Or.inl ⟨by rw [h1, hids], by omega⟩
  · exact Or.inr ⟨by rw [h1, hids, hnext], by omega⟩

theorem showEffectForColumn_tasks (cfg : Config) (c : String) (r : Nat) (st : BoardState) :
    (showEffectForColumn cfg c r st).tasks = st.tasks :=
  (showEffectForColumn_frame cfg c r st).1

theorem showEffectForColumn_next (cfg : Config) (c : String) (r : Nat) (st : BoardState) :
    (showEffectForColumn cfg c r st).nextTaskId = st.nextTaskId :=
  (showEffectForColumn_frame cfg c r st).2

theorem createNewTaskInBacklog_step (cfg : Config) (st : BoardState) (r1 r2 : Nat) :
    stepShape st (createNewTaskInBacklog cfg st r1 r2).2 := by
  unfold createNewTaskInBacklog
  dsimp only
  repeat' split
  · exact Or.inl ⟨rfl, le_refl _⟩
  · exact Or.inl ⟨rfl, Nat.le_succ _⟩
  · exact Or.inr ⟨by simp [taskIds, renderTasks], rfl⟩

theorem spawn_snd_shape (cfg : Config) (a st1 : BoardState) (r1 r2 : Nat) (e : Option JsErr)
    (heq : createNewTaskInBacklog cfg a r1 r2 = (e, st1)) : stepShape a st1 := by
  have h := createNewTaskInBacklog_step cfg a r1 r2
  rw [heq] at h
  exact h

theorem moveTask_step (cfg : Config) (st : BoardState) (tid : Nat) (nc oc : String)
    (r1 r2 r3 r4 r5 : Nat) :
    stepShape st (moveTask cfg st tid nc oc r1 r2 r3 r4 r5).2 := by
  unfold moveTask
  dsimp only
  repeat' split
  case h_1 => exact Or.inl ⟨rfl, le_refl _⟩
  case h_2.h_1 => exact Or.inl ⟨rfl, le_refl _⟩
  case h_2.h_2.isTrue.h_1 =>
    rename_i e st1 heq
    exact spawn_snd_shape cfg _ st1 r3 r4 _ heq
  case h_2.h_2.isTrue.h_2 =>
    rename_i st1 heq
    exact stepShape_congr (by simp [taskIds, showConfetti]) rfl
      (spawn_snd_shape cfg _ st1 r3 r4 _ heq)
  case h_2.h_2.isFalse.h_1 =>
    exact Or.inl ⟨by simp [taskIds, updateFirst_map_id], le_refl _⟩
  case h_2.h_2.isFalse.h_2.h_1 =>
    exact Or.inl ⟨by simp [taskIds, updateFirst_map_id], le_refl _⟩
  case h_2.h_2.isFalse.h_2.h_2.isTrue.h_1 =>
    rename_i e st1 heq
    have hsp := spawn_snd_shape cfg _ st1 r3 r4 _ heq
    exact stepShape_chain (by simp [taskIds, showConfetti, updateFirst_map_id])
      (by simp [showConfetti]) hsp
  case h_2.h_2.isFalse.h_2.h_2.isTrue.h_2 =>
    rename_i st1 heq
    have hsp := spawn_snd_shape cfg _ st1 r3 r4 _ heq
    exact stepShape_congr (by simp [taskIds, renderTasks]) (by simp [renderTasks])
      (stepShape_chain (by simp [taskIds, showConfetti, updateFirst_map_id])
        (by simp [showConfetti]) hsp)
  case h_2.h_2.isFalse.h_2.h_2.isFalse =>
    refine Or.inl ⟨?_, ?_⟩
    · simp [taskIds, renderTasks, showEffectForColumn_tasks, updateFirst_map_id]
    · simp [renderTasks, showEffectForColumn_next]

theorem stepShape_mono {st st1 : BoardState} (h : stepShape st st1) :
    st.nextTaskId ≤ st1.nextTaskId := by
  rcases h with ⟨_, h2⟩ | ⟨_, h2⟩ <;> omega

def IdInv (st0 st : BoardState) : Prop :=
  (∃ l, taskIds st = taskIds st0 ++ l ∧ l.Chain' (· < ·) ∧
    ∀ a ∈ l, ∀ b ∈ taskIds st0, b < a) ∧
  (∀ x ∈ taskIds st, x < st.nextTaskId) ∧
  st0.nextTaskId ≤ st.nextTaskId

theorem IdInv_step (st0 st st1 : BoardState) (hinv : IdInv st0 st)
    (hs : stepShape st st1) : IdInv st0 st1 := by
  obtain ⟨⟨l, hl, hch, hgt⟩, hbound, hmono⟩ := hinv
  rcases hs with ⟨hids, hnext⟩ | ⟨hids, hnext⟩
  · exact ⟨⟨l, by rw [hids, hl], hch, hgt⟩,
      fun x hx => lt_of_lt_of_le (hbound x (by rwa [hids] at hx)) hnext,
      le_trans hmono hnext⟩
  · refine ⟨⟨l ++ [st.nextTaskId], ?_, ?_, ?_⟩, ?_, ?_⟩
    · rw [hids, hl, List.append_assoc]
    · refine List.chain'_append.mpr ⟨hch, List.chain'_singleton _, ?_⟩
      intro x hx y hy
      simp at hy
      subst hy
      obtain ⟨hne, hxl⟩ := List.mem_getLast?_eq_getLast hx
      have hxmem : x ∈ l := by
        rw [hxl]
        exact List.getLast_mem hne
      have : x ∈ taskIds st := by
        rw [hl]
        exact List.mem_append_right _ hxmem
      exact hbound x this
    · intro a ha b hb
      rcases List.mem_append.mp ha with h1 | h1
      · exact hgt a h1 b hb
      · simp at h1
        subst h1
        have : b ∈ taskIds st := by
          rw [hl]
          exact List.mem_append_left _ hb
        exact hbound b this
    · intro x hx
      rw [hids] at hx
      rcases List.mem_append.mp hx with h1 | h1
      · have := hbound x h1
        omega
      · simp at h1
        omega
    · omega

theorem IdInv_runOp (cfg : Config) (st0 st : BoardState) (op : Op) (h : IdInv st0 st) :
    IdInv st0 (runOp cfg st op) := by
  cases op with
  | move tid ncol ocol r1 r2 r3 r4 r5 =>
    exact IdInv_step st0 st _ h (moveTask_step cfg st tid ncol ocol r1 r2 r3 r4 r5)
  | spawn r1 r2 =>
    exact IdInv_step st0 st _ h (createNewTaskInBacklog_step cfg st r1 r2)

theorem IdInv_runOps (cfg : Config) (st0 : BoardState) (ops : List Op) :
    ∀ st, IdInv st0 st → IdInv st0 (runOps cfg st ops) := by
  induction ops with
  | nil =>
    intro st h
    exact h
  | cons op rest ih =>
    intro st h
    exact ih _ (IdInv_runOp cfg st0 st op h)

theorem initStep_bound (cfg : Config) (st : BoardState) (tc : TaskConfig) (r : Nat)
    (hb : ∀ x ∈ taskIds st, x < st.nextTaskId) :
    ∀ x ∈ taskIds (initStep cfg st tc r), x < (initStep cfg st tc r).nextTaskId := by
  intro x hx
  have hids : taskIds (initStep cfg st tc r) = taskIds st ++ [tc.id] := by
    simp [initStep, taskIds]
  rw [hids] at hx
  show x < (if st.nextTaskId ≤ tc.id then tc.id + 1 else st.nextTaskId)
  rcases List.mem_append.mp hx with h1 | h1
  · have := hb x h1
    split <;> omega
  · simp at h1
    subst h1
    split <;> omega

theorem initLoop_bound (cfg : Config) (rs : Nat → Nat) :
    ∀ (tcs : List TaskConfig) (i : Nat) (st : BoardState),
      (∀ x ∈ taskIds st, x < st.nextTaskId) →
      ∀ x ∈ taskIds (initLoop cfg rs tcs i st), x < (initLoop cfg rs tcs i st).nextTaskId := by
  intro tcs
  induction tcs with
  | nil =>
    intro i st h
    simpa [initLoop] using h
  | cons tc rest ih =>
    intro i st h
    exact ih (i + 1) _ (initStep_bound cfg st tc (rs i) h)

theorem initLoop_ids (cfg : Config) (rs : Nat → Nat) :
    ∀ (tcs : List TaskConfig) (i : Nat) (st : BoardState),
      taskIds (initLoop cfg rs tcs i st) = taskIds st ++ tcs.map (fun tc => tc.id) := by
  intro tcs
  induction tcs with
  | nil =>
    intro i st
    simp [initLoop]
  | cons tc rest ih =>
    intro i st
    rw [show initLoop cfg rs (tc :: rest) i st =
      initLoop cfg rs rest (i + 1) (initStep cfg st tc (rs i)) from rfl, ih]
    simp [initStep, taskIds]

/-- C4: `nextTaskId` never decreases under any engine operation, and
across any sequence of `moveTask`/spawn operations after
`initializeTasks` the spawned tasks' ids form a strictly increasing
list appended after the seed ids, each spawned id strictly greater
than every seed id — so no id is ever repeated between seed and
spawned tasks or between two spawned tasks. -/
theorem spawned_ids_strictly_increasing (cfg : Config) (rs : Nat → Nat) (ops : List Op) :
    (∀ st op, st.nextTaskId ≤ (runOp cfg st op).nextTaskId) ∧
    (initializeTasks cfg rs).nextTaskId ≤ (runOps cfg (initializeTasks cfg rs) ops).nextTaskId ∧
    taskIds (initializeTasks cfg rs) = cfg.initialTasks.map (fun tc => tc.id) ∧
    ∃ l,
      taskIds (runOps cfg (initializeTasks cfg rs) ops) =
        taskIds (initializeTasks cfg rs) ++ l ∧
      l.Chain' (· < ·) ∧
      (∀ a ∈ l, ∀ b ∈ taskIds (initializeTasks cfg rs), b < a) := by
  have hop : ∀ st op, st.nextTaskId ≤ (runOp cfg st op).nextTaskId := by
    intro st op
    cases op with
    | move tid ncol ocol r1 r2 r3 r4 r5 =>
      exact stepShape_mono (moveTask_step cfg st tid ncol ocol r1 r2 r3 r4 r5)
    | spawn r1 r2 =>
      exact stepShape_mono (createNewTaskInBacklog_step cfg st r1 r2)
  have hbase : IdInv (initializeTasks cfg rs) (initializeTasks cfg rs) := by
    refine ⟨⟨[], by simp, List.chain'_nil, by simp⟩, ?_, le_refl _⟩
    exact initLoop_bound cfg rs cfg.initialTasks 0 initialBoard
      (by simp [initialBoard, taskIds])
  obtain ⟨⟨l, hl, hch, hgt⟩, hbound, hmono⟩ :=
    IdInv_runOps cfg (initializeTasks cfg rs) ops (initializeTasks cfg rs) hbase
  refine ⟨hop, hmono, ?_, ⟨l, hl, hch, hgt⟩⟩
  rw [show initializeTasks cfg rs = initLoop cfg rs cfg.initialTasks 0 initialBoard from rfl,
    initLoop_ids]
  simp [initialBoard, taskIds]

theorem spawned_ids_strictly_increasing_witness :
    ∃ l,
      taskIds (runOps cfgW (initializeTasks cfgW (fun _ => 0)) [Op.spawn 0 0, Op.spawn 1 1]) =
        taskIds (initializeTasks cfgW (fun _ => 0)) ++ l ∧
      l.Chain' (· < ·) ∧
      (∀ a ∈ l, ∀ b ∈ taskIds (initializeTasks cfgW (fun _ => 0)), b < a) :=
  (spawned_ids_strictly_increasing cfgW (fun _ => 0) [Op.spawn 0 0, Op.spawn 1 1]).2.2.2

end Kanban
